import Mathlib

/-!
Verification development for the uasset decoder of this repository.

The embedding models the two binary-parser variants of the source:
`src/tools/uasset_datatable_parser.py` (class `UE4DataTableParser`) and
`src/tools/uasset_to_json.py` (class `UAssetReader`).

Modelling conventions:
* A byte buffer is a `List Nat` (each concrete buffer holds values < 256);
  a cursor is a `Nat` index.  Python `struct.unpack` of a fixed-width
  little-endian integer raises `struct.error` when fewer bytes than the
  width remain; those primitive reads are modelled as `Option`, with
  `none` standing for the raised exception.
* Signed widths are decoded to `Int` with the explicit two's-complement
  adjustment (`sign32`, `sign64`); unsigned widths decode to `Nat`.
* Python text decoding: UTF-8 decoding is modelled byte-to-char for the
  ASCII range.  `decode('utf-8', errors='replace')` maps each byte ≥ 128
  to U+FFFD (for genuine multi-byte sequences Python would decode them;
  no verified claim inspects non-ASCII string content).  Strict
  `decode('utf-8')` is modelled as failing on any byte ≥ 128.
  UTF-16-LE decoding pairs bytes into code units and combines surrogate
  pairs; unpaired surrogates or an odd byte count fail, as in Python.
* `float` values are kept as their raw 32-bit little-endian bit pattern
  (a `Nat`); no claim inspects floating-point arithmetic.
* Functions keep the source's names with the leading underscore dropped
  (`_read_fstring` ↦ `readFString`); the `uasset_to_json.py` variant of a
  function that exists in both files carries a `J` suffix.
-/

/-- Byte at index `i`; out-of-range reads yield 0 but every use is guarded
exactly as the source guards (or wraps) its `struct.unpack` calls. -/
def byteAt (data : List Nat) (i : Nat) : Nat := data.getD i 0

/-- Little-endian 32-bit accumulation of the four bytes at `pos`. -/
def u32At (data : List Nat) (pos : Nat) : Nat :=
  byteAt data pos + 256 * byteAt data (pos + 1) + 65536 * byteAt data (pos + 2) +
    16777216 * byteAt data (pos + 3)

/-- Little-endian 64-bit accumulation of the eight bytes at `pos`. -/
def u64At (data : List Nat) (pos : Nat) : Nat :=
  u32At data pos + 4294967296 * u32At data (pos + 4)

/-- Two's-complement reading of a 32-bit pattern (`struct.unpack('<i', …)`). -/
def sign32 (u : Nat) : Int :=
  if u < 2147483648 then (u : Int) else (u : Int) - 4294967296

/-- Two's-complement reading of a 64-bit pattern (`struct.unpack('<q', …)`). -/
def sign64 (u : Nat) : Int :=
  if u < 9223372036854775808 then (u : Int) else (u : Int) - 18446744073709551616

/-- Signed 32-bit value at `pos` (unguarded form). -/
def int32At (data : List Nat) (pos : Nat) : Int := sign32 (u32At data pos)

/-- Signed 64-bit value at `pos` (unguarded form). -/
def int64At (data : List Nat) (pos : Nat) : Int := sign64 (u64At data pos)

/-- Model of `_read_uint8`: `data[pos]`; `IndexError` past the end is `none`. -/
def readUInt8 (data : List Nat) (pos : Nat) : Option (Nat × Nat) :=
  if pos < data.length then some (byteAt data pos, pos + 1) else none

/-- Model of `_read_int32`: `struct.unpack('<i', data[pos:pos+4])`. -/
def readInt32 (data : List Nat) (pos : Nat) : Option (Int × Nat) :=
  if pos + 4 ≤ data.length then some (int32At data pos, pos + 4) else none

/-- Model of `_read_uint32`: `struct.unpack('<I', data[pos:pos+4])`. -/
def readUInt32 (data : List Nat) (pos : Nat) : Option (Nat × Nat) :=
  if pos + 4 ≤ data.length then some (u32At data pos, pos + 4) else none

/-- Model of `_read_int64`: `struct.unpack('<q', data[pos:pos+8])`. -/
def readInt64 (data : List Nat) (pos : Nat) : Option (Int × Nat) :=
  if pos + 8 ≤ data.length then some (int64At data pos, pos + 8) else none

/-- Model of `_read_uint64`: `struct.unpack('<Q', data[pos:pos+8])`. -/
def readUInt64 (data : List Nat) (pos : Nat) : Option (Nat × Nat) :=
  if pos + 8 ≤ data.length then some (u64At data pos, pos + 8) else none

/-- Model of `_read_float`: the 4-byte pattern is kept raw (see the header comment). -/
def readFloatRaw (data : List Nat) (pos : Nat) : Option (Nat × Nat) :=
  if pos + 4 ≤ data.length then some (u32At data pos, pos + 4) else none

/-- Python slice `data[pos:pos+n]` (shorter when the buffer ends first). -/
def sliceBytes (data : List Nat) (pos n : Nat) : List Nat :=
  (data.drop pos).take n

/-- One byte of a Python string: ASCII maps to itself, anything else to the
U+FFFD replacement character (the `errors='replace'` behaviour). -/
def byteChar (b : Nat) : Char :=
  if b < 128 then Char.ofNat b else '�'

/-- Python `bytes.decode('utf-8', errors='replace')`, ASCII-exact (header comment). -/
def decodeUtf8R (bs : List Nat) : String := ⟨bs.map byteChar⟩

/-- Strict `bytes.decode('utf-8')`, ASCII-exact: fails on any byte ≥ 128. -/
def decodeUtf8S (bs : List Nat) : Option String :=
  if bs.all (· < 128) then some ⟨bs.map byteChar⟩ else none

/-- Group bytes into little-endian 16-bit code units; odd length fails. -/
def utf16Units : List Nat → Option (List Nat)
  | [] => some []
  | [_] => none
  | b0 :: b1 :: rest => (utf16Units rest).map ((b0 + 256 * b1) :: ·)

/-- Combine UTF-16 code units, pairing surrogates; stray surrogates fail. -/
def combineUnits : List Nat → Option (List Nat)
  | [] => some []
  | u :: rest =>
    if u < 55296 ∨ 57344 ≤ u then (combineUnits rest).map (u :: ·)
    else if u < 56320 then
      match rest with
      | v :: rest' =>
        if 56320 ≤ v ∧ v < 57344 then
          (combineUnits rest').map ((65536 + (u - 55296) * 1024 + (v - 56320)) :: ·)
        else none
      | [] => none
    else none

/-- Python `bytes.decode('utf-16-le')`: `none` models the raised `UnicodeDecodeError`. -/
def decodeUtf16 (bs : List Nat) : Option String :=
  ((utf16Units bs).bind combineUnits).map (fun cs => ⟨cs.map Char.ofNat⟩)

/-- Hex digit character, lowercase as `bytes.hex()` produces. -/
def hexDigit (n : Nat) : Char :=
  if n < 10 then Char.ofNat (48 + n) else Char.ofNat (87 + n)

/-- Python `bytes.hex()` of a byte list. -/
def hexStr (bs : List Nat) : String :=
  ⟨bs.foldr (fun b acc => hexDigit (b / 16 % 16) :: hexDigit (b % 16) :: acc) []⟩

/-- Model of `UE4DataTableParser._read_fstring` (uasset_datatable_parser.py:111-137).
Every out-of-bounds condition returns `("", pos)` without raising; the UTF-16
decode is wrapped in `try/except` (hence `getD ""`), the UTF-8 decode uses
`errors='replace'`. -/
def readFString (data : List Nat) (pos : Nat) : String × Nat :=
  if pos + 4 > data.length then ("", pos)
  else
    let len := int32At data pos
    let p := pos + 4
    if len = 0 then ("", p)
    else if len < 0 then
      let byteLength := (-len).toNat * 2
      if p + byteLength > data.length then ("", p)
      else ((decodeUtf16 (sliceBytes data p (byteLength - 2))).getD "", p + byteLength)
    else
      if p + len.toNat > data.length then ("", p)
      else (decodeUtf8R (sliceBytes data p (len.toNat - 1)), p + len.toNat)

/-- Model of `UAssetReader._read_fstring` (uasset_to_json.py:93-114).  Only the 4-byte
length prefix read can raise (`none`); a truncated body silently decodes the
short slice and pushes the cursor past the end. -/
def readFStringJ (data : List Nat) (pos : Nat) : Option (String × Nat) :=
  match readInt32 data pos with
  | none => none
  | some (len, p) =>
    if len = 0 then some ("", p)
    else if len < 0 then
      let byteLength := (-len).toNat * 2
      some ((decodeUtf16 (sliceBytes data p (byteLength - 2))).getD
              ("<binary:" ++ hexStr (sliceBytes data p byteLength) ++ ">"),
            p + byteLength)
    else
      some ((decodeUtf8S (sliceBytes data p (len.toNat - 1))).getD
              ("<binary:" ++ hexStr (sliceBytes data p len.toNat) ++ ">"),
            p + len.toNat)

/-- Name rendering of `_read_fname` (uasset_datatable_parser.py:139-152):
in-range index yields the table string, instance number `n > 0` appends
`_{n-1}`; out-of-range yields the `<name_i>` placeholder. -/
def fnameRender (names : List String) (idx num : Int) : String :=
  if h : 0 ≤ idx ∧ idx.toNat < names.length then
    let name := names.get ⟨idx.toNat, h.2⟩
    if num > 0 then name ++ "_" ++ toString (num - 1) else name
  else "<name_" ++ toString idx ++ ">"

/-- Model of `UE4DataTableParser._read_fname`: under the 8-byte guard both int32 reads
succeed, so they appear in their unguarded `int32At` form. -/
def readFName (names : List String) (data : List Nat) (pos : Nat) : String × Nat :=
  if pos + 8 ≤ data.length then
    (fnameRender names (int32At data pos) (int32At data (pos + 4)), pos + 8)
  else ("<invalid>", pos)

/-- Model of `UE4DataTableParser._get_name` (uasset_datatable_parser.py:324-329).
Python `index & 0xFFFFFFFF` on an `int` is reduction mod 2^32. -/
def getNameDT (names : List String) (index : Int) : String :=
  let idx := index % 4294967296
  if h : 0 ≤ idx ∧ idx.toNat < names.length then names.get ⟨idx.toNat, h.2⟩
  else "<name_" ++ toString idx ++ ">"

/-- Model of `UAssetReader._get_name` (uasset_to_json.py:278-284); the masked index is
never negative, so the single `idx < len(self.names)` check suffices. -/
def getNameJ (names : List String) (index : Int) : String :=
  let idx := index % 4294967296
  if h : idx.toNat < names.length then names.get ⟨idx.toNat, h⟩
  else "<name_" ++ toString idx ++ ">"


/-- One decoded property value (the heterogeneous Python value, made a tagged
union).  `vstr` also carries the `<…>` placeholder/error strings the source
produces as plain strings; `vdict` is the `{"_struct_type": t, **props}`
dictionary of the struct branch. -/
inductive PropValue where
  | vint (i : Int)
  | vfloat (bits : Nat)
  | vbool (b : Bool)
  | vstr (s : String)
  | varr (vs : List PropValue)
  | vdict (structType : String) (props : List (String × PropValue))
  deriving Repr

/-- Length of an array value; 0 for every non-array value. -/
def arrLength : PropValue → Nat
  | .varr vs => vs.length
  | _ => 0

/-- Python `s.startswith(c)` for a single-character prefix `c`: the first
character equals `c`. -/
def startsChar (s : String) (c : Char) : Bool :=
  match s.data with
  | [] => false
  | a :: _ => a == c

/-- The sentinel test of the property loop (uasset_datatable_parser.py:387):
`prop_name == "None" or prop_name == "" or prop_name.startswith("<")`. -/
def isSentinel (s : String) : Bool :=
  s == "None" || s == "" || startsChar s '<'

/-- Stored key of a property: `f"{prop_name}[{array_idx}]"` when the array
index is positive (uasset_datatable_parser.py:405-406). -/
def propKey (nm : String) (arrayIdx : Int) : String :=
  if arrayIdx > 0 then nm ++ "[" ++ toString arrayIdx ++ "]" else nm

/-- Python `props[prop_name] = value` on a dict modelled as an ordered
association list: an existing key keeps its position and gets the new value,
a new key is appended. -/
def dictInsert (ps : List (String × PropValue)) (k : String) (v : PropValue) :
    List (String × PropValue) :=
  if ps.any (fun p => p.1 == k) then ps.map (fun p => if p.1 == k then (k, v) else p)
  else ps ++ [(k, v)]

/-- Python `range(min(count, 100))` iteration count of the array branch; a negative
count gives an empty range. -/
def elemCount (c : Int) : Nat := (min c 100).toNat

/-- Python `pos + max(size, 1)` advance of the exception handler
(uasset_datatable_parser.py:481). -/
def szSkip (size : Int) : Nat := (max size 1).toNat

/-- Value produced by the `except` clause of `_read_property_value`; the
Python string interpolates the exception text, abstracted here. -/
def errValue : PropValue := .vstr "<error>"

/-- The element loop of the array branch (uasset_datatable_parser.py:454-457):
each element is decoded by `rv` with declared size 0, in source order. -/
def readArrayElems (rv : Nat → String → Int → PropValue × Nat) :
    Nat → Nat → String → List PropValue × Nat
  | 0, pos, _ => ([], pos)
  | n + 1, pos, innerType =>
    let (v, p) := rv pos innerType 0
    let (vs, p') := readArrayElems rv n p innerType
    (v :: vs, p')

/-- The `_read_properties` loop (uasset_datatable_parser.py:375-410),
parameterised by the property-value decoder `rv` (pos, type, size).  `none`
models a `struct.error` escaping the loop (only the size/array-index reads
can raise; `_read_fname` and `rv` are total). -/
def readPropsLoopG (names : List String) (rv : Nat → String → Int → PropValue × Nat)
    (data : List Nat) :
    Nat → List (String × PropValue) → Nat → Option (List (String × PropValue) × Nat)
  | 0, props, pos => some (props, pos)
  | iters + 1, props, pos =>
    if (data.length : Int) - 8 ≤ (pos : Int) then some (props, pos)
    else
      let (nm, p1) := readFName names data pos
      if isSentinel nm then some (props, p1)
      else
        let (ty, p2) := readFName names data p1
        match readInt64 data p2 with
        | none => none
        | some (sz, p3) =>
          match readInt32 data p3 with
          | none => none
          | some (arrayIdx, p4) =>
            let (v, p5) := rv p4 ty sz
            readPropsLoopG names rv data iters (dictInsert props (propKey nm arrayIdx) v) p5

/-- The known type tags of `_read_property_value`'s dispatch chain. -/
def knownPropertyTypes : List String :=
  ["IntProperty", "FloatProperty", "BoolProperty", "StrProperty", "NameProperty",
   "ByteProperty", "EnumProperty", "ArrayProperty", "StructProperty",
   "ObjectProperty", "SoftObjectProperty"]

/-- One level of `_read_property_value` (uasset_datatable_parser.py:412-481),
with `prev` the decoder used for recursive calls (array elements, struct
property lists).  Branches where a primitive read raises land in the `except`
clause: `(errValue, pos + max(size, 1))` with `pos` as updated so far. -/
def readPropertyValueStep (names : List String) (data : List Nat)
    (prev : Nat → String → Int → PropValue × Nat)
    (pos : Nat) (ptype : String) (size : Int) : PropValue × Nat :=
  if ptype = "IntProperty" then
    match readInt32 data pos with
    | some (v, p) => (.vint v, p)
    | none => (errValue, pos + szSkip size)
  else if ptype = "FloatProperty" then
    match readFloatRaw data pos with
    | some (u, p) => (.vfloat u, p)
    | none => (errValue, pos + szSkip size)
  else if ptype = "BoolProperty" then
    match readUInt8 data pos with
    | some (b, p) => (.vbool (b != 0), p)
    | none => (errValue, pos + szSkip size)
  else if ptype = "StrProperty" then
    let (s, p) := readFString data pos
    (.vstr s, p)
  else if ptype = "NameProperty" then
    let (s, p) := readFName names data pos
    (.vstr s, p)
  else if ptype = "ByteProperty" then
    let (enumName, p1) := readFName names data pos
    if enumName ≠ "None" then
      let (v, p2) := readFName names data p1
      (.vstr (enumName ++ "::" ++ v), p2)
    else
      match readUInt8 data p1 with
      | some (b, p2) => (.vint b, p2)
      | none => (errValue, p1 + szSkip size)
  else if ptype = "EnumProperty" then
    let (enumType, p1) := readFName names data pos
    let (v, p2) := readFName names data p1
    (.vstr (enumType ++ "::" ++ v), p2)
  else if ptype = "ArrayProperty" then
    let (innerType, p1) := readFName names data pos
    match readInt32 data (p1 + 1) with   -- `pos += 1` skips the padding byte
    | none => (errValue, (p1 + 1) + szSkip size)
    | some (count, p3) =>
      let (vs, p') := readArrayElems prev (elemCount count) p3 innerType
      (.varr vs, p')
  else if ptype = "StructProperty" then
    let (structType, p1) := readFName names data pos
    match readPropsLoopG names prev data 100 [] (p1 + 17) with  -- skip GUID + null
    | none => (errValue, (p1 + 17) + szSkip size)
    | some (ps, p') => (.vdict structType ps, p')
  else if ptype = "ObjectProperty" ∨ ptype = "SoftObjectProperty" then
    match readInt32 data pos with
    | some (v, p) => (.vstr ("<object_" ++ toString v ++ ">"), p)
    | none => (errValue, pos + szSkip size)
  else
    if size > 0 then
      (.vstr ("<" ++ ptype ++ ":" ++ hexStr ((sliceBytes data pos size.toNat).take 32) ++ ">"),
       pos + size.toNat)
    else (.vstr ("<" ++ ptype ++ ">"), pos)

/-- Model of `_read_property_value` with an explicit recursion budget; Python needs
none because every nesting level strictly advances the cursor, so any
`fuel` of at least the struct/array nesting depth reproduces it.  Fuel
exhaustion returns a sentinel never reached with adequate fuel. -/
def readPropertyValue (names : List String) (data : List Nat) (fuel : Nat) :
    Nat → String → Int → PropValue × Nat :=
  Nat.rec (motive := fun _ => Nat → String → Int → PropValue × Nat)
    (fun pos _ _ => (.vstr "<recursion_limit>", pos))
    (fun _ prev => readPropertyValueStep names data prev) fuel

/-- Unfolding equation: at positive fuel, one dispatch step whose recursive
occurrences run at the predecessor fuel. -/
theorem readPropertyValue_succ (names : List String) (data : List Nat) (fuel : Nat) :
    readPropertyValue names data (fuel + 1) =
      readPropertyValueStep names data (readPropertyValue names data fuel) := rfl

/-- Model of `_read_properties`: the loop with its 100-iteration cap and an empty
initial dict, dispatching values to `_read_property_value`. -/
def readProperties (names : List String) (data : List Nat) (fuel : Nat) (pos : Nat) :
    Option (List (String × PropValue) × Nat) :=
  readPropsLoopG names (readPropertyValue names data fuel) data 100 [] pos


/-- One import-table entry as `_parse_import_table` stores it (the resolved
name strings; the raw outer index is read but not stored). -/
structure ImportRec where
  class_package : String
  class_name : String
  object_name : String
  deriving Repr, DecidableEq

/-- One export-table entry as `_parse_export_table` stores it. -/
structure ExportRec where
  object_name : String
  class_name : String
  serial_size : Int
  serial_offset : Int
  deriving Repr, DecidableEq

/-- The header dictionary `_parse_header` returns. -/
structure HeaderInfo where
  file_version_ue4 : Int
  name_count : Nat
  export_count : Nat
  import_count : Nat
  deriving Repr, DecidableEq

/-- The offsets `_parse_header` stores on `self` for the later table reads. -/
structure HeaderOffsets where
  total_header_size : Nat
  name_offset : Nat
  export_offset : Nat
  import_offset : Nat
  deriving Repr, DecidableEq

/-- One decoded row: `{"_index": i, "_row_name": name, **props}`. -/
structure RowRec where
  index : Nat
  row_name : String
  props : List (String × PropValue)
  deriving Repr

/-- The result dictionary of `read_file` (uasset_datatable_parser.py:35-78).
`extracted` marks the presence of the `extracted_data` fallback key; the
heuristic string/number scan that fills it (`_enhanced_extraction`) is the
schema-free scanning mode that the specification's §1 puts out of scope, so
only its presence is modelled.  `parse_error` is `str(e)` of the caught
exception. -/
structure ReadResult where
  header : Option HeaderInfo
  names : List String
  imports : List ImportRec
  exports : List ExportRec
  rows : List RowRec
  parse_error : Option String
  extracted : Bool
  deriving Repr

/-- Export class-name resolution, the inline fragment of
`_parse_export_table` (uasset_datatable_parser.py:302-307); the identical
fragment appears in `UAssetReader._read_exports` (uasset_to_json.py:257-262). -/
def resolveClassName (imports : List ImportRec) (classIdx : Int) : String :=
  if classIdx < 0 then
    let impIdx := (-classIdx - 1).toNat
    if h : impIdx < imports.length then (imports.get ⟨impIdx, h⟩).object_name else ""
  else ""

/-- The `_parse_name_table` loop (uasset_datatable_parser.py:223-242): read
an FString, stop on an empty name, skip the 4-byte hash when present, append;
bounded by the import-table offset and by `len(data) - 4`.  The body never
raises (`_read_fstring` is total), so the `try/except` is invisible.  Fuel:
each surviving iteration advances the cursor by at least 5 bytes. -/
def parseNameTableLoop (data : List Nat) (importOffset : Nat) :
    Nat → Nat → List String → List String
  | 0, _, acc => acc
  | fuel + 1, pos, acc =>
    if pos < importOffset ∧ (pos : Int) < (data.length : Int) - 4 then
      let (name, p1) := readFString data pos
      if name = "" then acc
      else
        let p2 := if p1 + 4 ≤ data.length then p1 + 4 else p1
        parseNameTableLoop data importOffset fuel p2 (acc ++ [name])
    else acc

/-- Model of `_parse_name_table`, started at the header's declared name offset. -/
def parseNameTable (data : List Nat) (nameOffset importOffset : Nat) : List String :=
  parseNameTableLoop data importOffset (data.length + 1) nameOffset []

/-- One import record (uasset_datatable_parser.py:252-265): four reads, an
optional 4-byte skip, and name resolution; `none` is the `struct.error` that
makes the enclosing loop break. -/
def readImportRecord (names : List String) (data : List Nat) (pos : Nat) :
    Option (ImportRec × Nat) := do
  let (classPackage, p) ← readInt64 data pos
  let (className, p) ← readInt64 data p
  let (_outerIndex, p) ← readInt32 data p
  let (objectName, p) ← readInt64 data p
  let p := if p + 4 ≤ data.length then p + 4 else p   -- UE4.26+ optional field
  pure ({ class_package := getNameDT names classPackage,
          class_name := getNameDT names className,
          object_name := getNameDT names objectName }, p)

/-- The `_parse_import_table` loop (uasset_datatable_parser.py:244-269). -/
def parseImportTableLoop (names : List String) (data : List Nat) (exportOffset : Nat) :
    Nat → Nat → List ImportRec → List ImportRec
  | 0, _, acc => acc
  | fuel + 1, pos, acc =>
    if pos < exportOffset ∧ (pos : Int) < (data.length : Int) - 32 then
      match readImportRecord names data pos with
      | none => acc
      | some (r, p') => parseImportTableLoop names data exportOffset fuel p' (acc ++ [r])
    else acc

/-- Model of `_parse_import_table`, started at the header's declared import offset. -/
def parseImportTable (names : List String) (data : List Nat)
    (importOffset exportOffset : Nat) : List ImportRec :=
  parseImportTableLoop names data exportOffset (data.length + 1) importOffset []

/-- One export record (uasset_datatable_parser.py:278-314): the fixed-layout
reads (the GUID slice and the two positional skips never raise), then name
and class resolution. -/
def readExportRecord (names : List String) (imports : List ImportRec)
    (data : List Nat) (pos : Nat) : Option (ExportRec × Nat) := do
  let (classIdx, p) ← readInt64 data pos
  let (_superIdx, p) ← readInt64 data p
  let (_templateIdx, p) ← readInt32 data p
  let (_outerIdx, p) ← readInt32 data p
  let (objectName, p) ← readInt64 data p
  let (_objFlags, p) ← readUInt32 data p
  let (serialSize, p) ← readInt64 data p
  let (serialOffset, p) ← readInt64 data p
  let (_forcedExport, p) ← readInt32 data p
  let (_notForClient, p) ← readInt32 data p
  let (_notForServer, p) ← readInt32 data p
  let p := p + 16                                   -- package GUID slice
  let (_pkgFlags, p) ← readUInt32 data p
  let (_notAlways, p) ← readInt32 data p
  let (_isAsset, p) ← readInt32 data p
  let p := p + 4                                    -- first export class to load
  pure ({ object_name := getNameDT names objectName,
          class_name := resolveClassName imports classIdx,
          serial_size := serialSize, serial_offset := serialOffset }, p)

/-- The `_parse_export_table` loop (uasset_datatable_parser.py:271-322):
append each record, then stop once a record's serial size is ≤ 0; a
`struct.error` mid-record breaks without appending. -/
def parseExportTableLoop (names : List String) (imports : List ImportRec)
    (data : List Nat) : Nat → Nat → List ExportRec → List ExportRec
  | 0, _, acc => acc
  | fuel + 1, pos, acc =>
    if (pos : Int) < (data.length : Int) - 64 then
      match readExportRecord names imports data pos with
      | none => acc
      | some (r, p') =>
        if r.serial_size ≤ 0 then acc ++ [r]
        else parseExportTableLoop names imports data fuel p' (acc ++ [r])
    else acc

/-- Model of `_parse_export_table`, started at the header's declared export offset. -/
def parseExportTable (names : List String) (imports : List ImportRec)
    (data : List Nat) (exportOffset : Nat) : List ExportRec :=
  parseExportTableLoop names imports data (data.length + 1) exportOffset []

/-- The `PACKAGE_FILE_TAG` magic constant. -/
def PACKAGE_FILE_TAG : Nat := 0x9E2A83C1

/-- Lift a primitive read into the header parser's exception monad; the
message models `str(struct.error)`. -/
def liftE {α : Type} (o : Option α) : Except String α :=
  match o with
  | some a => .ok a
  | none => .error "unpack requires more bytes than remain"

/-- Model of `_parse_header` (uasset_datatable_parser.py:154-221).  A wrong magic tag
raises `ValueError` (modelled as `.error`); every other failure is a
`struct.error` from reading past the end.  The two trailing skips read
nothing, so they cannot fail. -/
def parseHeader (data : List Nat) : Except String (HeaderInfo × HeaderOffsets) := do
  let (magic, pos) ← liftE (readUInt32 data 0)
  if magic ≠ PACKAGE_FILE_TAG then throw "Invalid magic" else do
  let (_legacyVersion, pos) ← liftE (readInt32 data pos)
  let (_legacyUe3, pos) ← liftE (readInt32 data pos)
  let (fileVersionUe4, pos) ← liftE (readInt32 data pos)
  let (_fileVersionUe5, pos) ← liftE (readInt32 data pos)
  let (_fileVersionLicensee, pos) ← liftE (readInt32 data pos)
  let (customVersionCount, pos) ← liftE (readInt32 data pos)
  let pos := pos + 20 * customVersionCount.toNat    -- GUID (16) + version (4) each
  let (totalHeaderSize, pos) ← liftE (readUInt32 data pos)
  let (_folderName, pos) := readFString data pos
  let (_packageFlags, pos) ← liftE (readUInt32 data pos)
  let (nameCount, pos) ← liftE (readUInt32 data pos)
  let (nameOffset, pos) ← liftE (readUInt32 data pos)
  let (_softObjCount, pos) ← liftE (readInt32 data pos)
  let (_softObjOffset, pos) ← liftE (readInt32 data pos)
  let (_gatherCount, pos) ← liftE (readInt32 data pos)
  let (_gatherOffset, pos) ← liftE (readInt32 data pos)
  let (exportCount, pos) ← liftE (readUInt32 data pos)
  let (exportOffset, pos) ← liftE (readUInt32 data pos)
  let (importCount, pos) ← liftE (readUInt32 data pos)
  let (importOffset, pos) ← liftE (readUInt32 data pos)
  let (_dependsOffset, pos) ← liftE (readUInt32 data pos)
  let (_softPkgCount, pos) ← liftE (readUInt32 data pos)
  let (_softPkgOffset, pos) ← liftE (readUInt32 data pos)
  let (_searchableOffset, pos) ← liftE (readInt32 data pos)
  let (_thumbnailOffset, pos) ← liftE (readUInt32 data pos)
  let pos := pos + 16                               -- GUID slice, never fails
  let (genCount, pos) ← liftE (readUInt32 data pos)
  let pos := pos + 8 * genCount                     -- per-generation counts
  let pos := pos + 4                                -- saved-by engine version
  let _pos := pos + 20                              -- compatible engine version
  pure ({ file_version_ue4 := fileVersionUe4, name_count := nameCount,
          export_count := exportCount, import_count := importCount },
        { total_header_size := totalHeaderSize, name_offset := nameOffset,
          export_offset := exportOffset, import_offset := importOffset })

/-- The leading-zero skip of `_parse_datatable_content`
(uasset_datatable_parser.py:346-347). -/
def skipZeros (data : List Nat) : Nat → Nat → Nat
  | 0, pos => pos
  | fuel + 1, pos =>
    if (pos : Int) < (data.length : Int) - 4 ∧ sliceBytes data pos 4 = [0, 0, 0, 0] then
      skipZeros data fuel (pos + 4)
    else pos

/-- The per-row loop of `_parse_datatable_content`
(uasset_datatable_parser.py:353-367); `none` is an escaping `struct.error`
(only `_read_properties` can raise here). -/
def rowsLoop (names : List String) (data : List Nat) :
    Nat → Nat → Nat → List RowRec → Option (List RowRec)
  | 0, _, _, acc => some acc
  | n + 1, pos, i, acc =>
    if (data.length : Int) - 8 ≤ (pos : Int) then some acc
    else
      let (rowName, p1) := readFName names data pos
      match readProperties names data (data.length + 1) p1 with
      | none => none
      | some (props, p2) =>
        rowsLoop names data n p2 (i + 1) (acc ++ [⟨i, rowName, props⟩])

/-- The position scan of `_parse_datatable_alternative`
(uasset_datatable_parser.py:483-517): at each byte offset, try to interpret
the window as a row FName followed by a property list; inner exceptions are
swallowed (`except: pass`). -/
def altLoop (names : List String) (data : List Nat) :
    Nat → Nat → Nat → List RowRec → List RowRec
  | 0, _, _, acc => acc
  | fuel + 1, pos, rowId, acc =>
    if (pos : Int) < (data.length : Int) - 16 then
      let nameIdx := u32At data pos                 -- in bounds under the guard
      let hit : Option RowRec :=
        if h : nameIdx < names.length then
          let rowName := names.get ⟨nameIdx, h⟩
          if rowName ≠ "" ∧ rowName ≠ "None" ∧ ¬ startsChar rowName '/' then
            match readProperties names data (data.length + 1) (pos + 8) with
            | some (props, _) =>
              if ¬ props.isEmpty then some ⟨rowId, rowName, props⟩ else none
            | none => none                          -- swallowed exception
          else none
        else none
      match hit with
      | some row => altLoop names data fuel (pos + 1) (rowId + 1) (acc ++ [row])
      | none => altLoop names data fuel (pos + 1) rowId acc
    else acc

/-- Model of `_parse_datatable_alternative`. -/
def parseDatatableAlternative (names : List String) (data : List Nat) : List RowRec :=
  altLoop names data (data.length + 1) 0 0 []

/-- Model of `_parse_datatable_content` (uasset_datatable_parser.py:331-373): skip
leading zero words, read a row count, sanity-check it, then decode rows; any
escaping exception falls back to the alternative scan. -/
def parseDatatableContent (names : List String) (data : List Nat) : List RowRec :=
  if data.length < 4 then []
  else
    let pos := skipZeros data data.length 0
    match readInt32 data pos with
    | none => parseDatatableAlternative names data
    | some (rowCount, p) =>
      if 0 < rowCount ∧ rowCount < 10000 then
        match rowsLoop names data rowCount.toNat p 0 [] with
        | some rows => rows
        | none => parseDatatableAlternative names data
      else []

/-- Model of `read_file` (uasset_datatable_parser.py:35-78), minus the file I/O: the
two buffers arrive as arguments.  Only `_parse_header` can raise inside the
`try`; the caught exception annotates the result and triggers the
`_enhanced_extraction` fallback (presence modelled by `extracted`). -/
def readFile (data uexp : List Nat) : ReadResult :=
  match parseHeader data with
  | .error e =>
    { header := none, names := [], imports := [], exports := [], rows := [],
      parse_error := some e, extracted := true }
  | .ok (info, offs) =>
    let names := parseNameTable data offs.name_offset offs.import_offset
    let imports := parseImportTable names data offs.import_offset offs.export_offset
    let exports := parseExportTable names imports data offs.export_offset
    let rows := if uexp.isEmpty then [] else parseDatatableContent names uexp
    { header := some info, names := names, imports := imports, exports := exports,
      rows := rows, parse_error := none, extracted := false }

/-- Model of `UAssetReader._read_names` (uasset_to_json.py:188-197): exactly
`name_count` iterations, each reading one FString (whose length-prefix read
may raise, aborting the whole parse), skipping the 4-byte hash when present,
and appending. -/
def readNamesJ (data : List Nat) : Nat → Nat → List String → Option (List String × Nat)
  | 0, pos, acc => some (acc, pos)
  | n + 1, pos, acc =>
    match readFStringJ data pos with
    | none => none
    | some (s, p1) =>
      let p2 := if p1 + 4 ≤ data.length then p1 + 4 else p1
      readNamesJ data n p2 (acc ++ [s])

/-- Observable iteration trace of `_read_properties`: `PropTrace names rv data
pos tr pos'` states that starting at `pos` the loop performs `tr.length`
non-sentinel iterations, producing the stored key/value pairs `tr` in order
and leaving the cursor at `pos'`; `rv` is the value decoder in use. -/
inductive PropTrace (names : List String) (rv : Nat → String → Int → PropValue × Nat)
    (data : List Nat) : Nat → List (String × PropValue) → Nat → Prop
  | nil (pos : Nat) : PropTrace names rv data pos [] pos
  | step {pos p1 p2 p3 p4 p5 posEnd : Nat} {nm ty : String} {sz arrayIdx : Int}
      {v : PropValue} {tr : List (String × PropValue)}
      (hguard : (pos : Int) < (data.length : Int) - 8)
      (hname : readFName names data pos = (nm, p1))
      (hsent : isSentinel nm = false)
      (htype : readFName names data p1 = (ty, p2))
      (hsize : readInt64 data p2 = some (sz, p3))
      (hidx : readInt32 data p3 = some (arrayIdx, p4))
      (hval : rv p4 ty sz = (v, p5))
      (hrest : PropTrace names rv data p5 tr posEnd) :
      PropTrace names rv data pos ((propKey nm arrayIdx, v) :: tr) posEnd

/-- Little-endian 4-byte encoding of a value < 2^32 (input construction for
the name-table theorems). -/
def le32 (v : Nat) : List Nat :=
  [v % 256, v / 256 % 256, v / 65536 % 256, v / 16777216 % 256]

/-- Serialized form of one name-table entry: length-prefixed string bytes
with trailing NUL, then the 4-byte hash (input construction). -/
def encodeEntry (e : List Nat × List Nat) : List Nat :=
  le32 (e.1.length + 1) ++ e.1 ++ [0] ++ e.2

/-- Serialized form of a sequence of name-table entries. -/
def encodeEntries (es : List (List Nat × List Nat)) : List Nat :=
  (es.map encodeEntry).flatten

/-- A well-formed name-table entry: non-empty name bytes within the 32-bit
length range and a 4-byte hash. -/
def WfEntry (e : List Nat × List Nat) : Prop :=
  e.1 ≠ [] ∧ e.1.length + 1 < 2147483648 ∧ e.2.length = 4

/-- The C4 scenario buffer: a complete 144-byte header declaring 2 names at
offset 144 (import/export tables declared at 160, past the end), followed by
one complete name entry ("A" plus hash) and then truncated. -/
def c4data : List Nat :=
  [193, 131, 42, 158] ++ List.replicate 24 0 ++ [144, 0, 0, 0] ++ List.replicate 8 0 ++
  [2, 0, 0, 0] ++ [144, 0, 0, 0] ++ List.replicate 16 0 ++ [0, 0, 0, 0] ++ [160, 0, 0, 0] ++
  [0, 0, 0, 0] ++ [160, 0, 0, 0] ++ List.replicate 64 0 ++ [2, 0, 0, 0, 65, 0] ++ [0, 0, 0, 0]

/-- A 49-byte property-list buffer: one IntProperty "A" with value 7, then
the "None" terminator FName, then 9 trailing bytes. -/
def c6data : List Nat :=
  [0, 0, 0, 0, 0, 0, 0, 0, 1, 0, 0, 0, 0, 0, 0, 0, 4, 0, 0, 0, 0, 0, 0, 0,
   0, 0, 0, 0, 7, 0, 0, 0, 2, 0, 0, 0, 0, 0, 0, 0, 0, 0, 0, 0, 0, 0, 0, 0, 0]

/-! ## Claim theorems -/

/-- Claim C7: for every FName (index, number) whose index is in range for the
names list, instance number 0 decodes to the bare name-table string and
instance number `n > 0` decodes to the bare string with `_{n-1}` appended. -/
theorem claim7_fname_instance_suffix (names : List String) (data : List Nat)
    (pos : Nat) (hlen : pos + 8 ≤ data.length) (h0 : 0 ≤ int32At data pos)
    (hlt : (int32At data pos).toNat < names.length) :
    (int32At data (pos + 4) = 0 →
      readFName names data pos = (names.get ⟨(int32At data pos).toNat, hlt⟩, pos + 8)) ∧
    (0 < int32At data (pos + 4) →
      readFName names data pos =
        (names.get ⟨(int32At data pos).toNat, hlt⟩ ++ "_" ++
          toString (int32At data (pos + 4) - 1), pos + 8)) := by
  constructor
  · intro hz
    rw [readFName, if_pos hlen, fnameRender, dif_pos ⟨h0, hlt⟩, hz]
    simp
  · intro hp
    rw [readFName, if_pos hlen, fnameRender, dif_pos ⟨h0, hlt⟩, if_pos hp]

/-- Witness for C7 at the spec's own example: name "Item" with instance
number 3 decodes to "Item_2". -/
theorem claim7_witness :
    readFName ["Item"] [0, 0, 0, 0, 3, 0, 0, 0] 0 = ("Item_2", 8) := by
  have h := (claim7_fname_instance_suffix ["Item"] [0, 0, 0, 0, 3, 0, 0, 0] 0
    (by decide) (by decide) (by decide)).2 (by decide)
  exact h.trans (by decide)

/-- Claim C8: an export record's negative class-index `c` resolves to the
object name of import record `-c - 1` whenever that import exists, and a
non-negative class-index resolves to the empty string rather than failing. -/
theorem claim8_export_class_resolution (imports : List ImportRec) (c : Int) :
    (c < 0 → ∀ h : (-c - 1).toNat < imports.length,
      resolveClassName imports c = (imports.get ⟨(-c - 1).toNat, h⟩).object_name) ∧
    (0 ≤ c → resolveClassName imports c = "") := by
  constructor
  · intro hneg h
    rw [resolveClassName, if_pos hneg, dif_pos h]
  · intro hpos
    rw [resolveClassName, if_neg (by omega)]

/-- Witness for C8: class-index −1 resolves to import 0, −5 to import 4, and
a non-negative index to the empty string. -/
theorem claim8_witness :
    resolveClassName [⟨"", "", "I0"⟩, ⟨"", "", "I1"⟩, ⟨"", "", "I2"⟩,
        ⟨"", "", "I3"⟩, ⟨"", "", "I4"⟩] (-1) = "I0" ∧
    resolveClassName [⟨"", "", "I0"⟩, ⟨"", "", "I1"⟩, ⟨"", "", "I2"⟩,
        ⟨"", "", "I3"⟩, ⟨"", "", "I4"⟩] (-5) = "I4" ∧
    resolveClassName [⟨"", "", "I0"⟩, ⟨"", "", "I1"⟩, ⟨"", "", "I2"⟩,
        ⟨"", "", "I3"⟩, ⟨"", "", "I4"⟩] 3 = "" := by
  refine ⟨?_, ?_, ?_⟩
  · exact ((claim8_export_class_resolution _ (-1)).1 (by decide) (by decide)).trans (by decide)
  · exact ((claim8_export_class_resolution _ (-5)).1 (by decide) (by decide)).trans (by decide)
  · exact (claim8_export_class_resolution _ 3).2 (by decide)

/-- Claim C9: the table readers' name lookup first reduces the 64-bit index
modulo 2^32 — a non-negative value — then bounds-checks it against the names
list, returning the stored string in range and the `<name_idx>` placeholder
out of range; it never indexes with a negative value and never raises (both
variants are total functions of exactly this shape). -/
theorem claim9_get_name_masked_lookup (names : List String) (index : Int) :
    0 ≤ index % 4294967296 ∧
    (∀ h : (index % 4294967296).toNat < names.length,
      getNameDT names index = names.get ⟨(index % 4294967296).toNat, h⟩ ∧
      getNameJ names index = names.get ⟨(index % 4294967296).toNat, h⟩) ∧
    (names.length ≤ (index % 4294967296).toNat →
      getNameDT names index = "<name_" ++ toString (index % 4294967296) ++ ">" ∧
      getNameJ names index = "<name_" ++ toString (index % 4294967296) ++ ">") := by
  have hnn : 0 ≤ index % 4294967296 := Int.emod_nonneg index (by norm_num)
  refine ⟨hnn, fun h => ⟨?_, ?_⟩, fun h => ⟨?_, ?_⟩⟩
  · rw [getNameDT, dif_pos ⟨hnn, h⟩]
  · rw [getNameJ, dif_pos h]
  · rw [getNameDT, dif_neg (by omega)]
  · rw [getNameJ, dif_neg (by omega)]

/-- Witness for C9: a negative 64-bit index masks to 4294967295, which is out
of range for a one-element list and yields the placeholder; index 0 is in
range and yields the stored name. -/
theorem claim9_witness :
    getNameDT ["X"] (-1) = "<name_4294967295>" ∧ getNameJ ["X"] (-1) = "<name_4294967295>" ∧
    getNameDT ["X"] 0 = "X" := by
  refine ⟨?_, ?_, ?_⟩
  · exact (((claim9_get_name_masked_lookup ["X"] (-1)).2.2 (by decide)).1).trans (by decide)
  · exact (((claim9_get_name_masked_lookup ["X"] (-1)).2.2 (by decide)).2).trans (by decide)
  · exact (((claim9_get_name_masked_lookup ["X"] 0).2.1 (by decide)).1).trans (by decide)

/-- A buffer whose leading 4-byte read is not the magic tag makes
`_parse_header` raise (`ValueError` on a wrong tag, `struct.error` on a
buffer shorter than 4 bytes). -/
theorem parseHeader_error_of_bad_magic (data : List Nat)
    (h : readUInt32 data 0 ≠ some (PACKAGE_FILE_TAG, 4)) :
    ∃ e, parseHeader data = .error e := by
  cases hu : readUInt32 data 0 with
  | none =>
    refine ⟨"unpack requires more bytes than remain", ?_⟩
    unfold parseHeader
    rw [hu]
    rfl
  | some vp =>
    obtain ⟨v, p⟩ := vp
    have hp : p = 4 := by
      unfold readUInt32 at hu
      split at hu
      · exact ((Prod.mk.injEq .. ▸ Option.some.injEq .. ▸ hu).2).symm
      · exact absurd hu (by simp)
    subst hp
    have hv : v ≠ PACKAGE_FILE_TAG := fun hveq => h (by rw [hu, hveq])
    refine ⟨"Invalid magic", ?_⟩
    unfold parseHeader
    rw [hu]
    show (if v ≠ PACKAGE_FILE_TAG then throw "Invalid magic" else _ : Except String _) = _
    rw [if_pos hv]
    rfl

/-- Claim C5: when the first four bytes are not the magic constant
0x9E2A83C1, the decode aborts — no name/import/export tables (nor rows) are
decoded — and the caller receives a result annotated with a parse error plus
the salvaged-extraction marker; `readFile` is total, so there is no
unhandled crash. -/
theorem claim5_bad_magic_aborts (data uexp : List Nat)
    (h : readUInt32 data 0 ≠ some (PACKAGE_FILE_TAG, 4)) :
    (readFile data uexp).names = [] ∧ (readFile data uexp).imports = [] ∧
    (readFile data uexp).exports = [] ∧ (readFile data uexp).rows = [] ∧
    (readFile data uexp).parse_error.isSome = true ∧
    (readFile data uexp).extracted = true := by
  obtain ⟨e, he⟩ := parseHeader_error_of_bad_magic data h
  simp [readFile, he]

/-- Witness for C5 on a zeroed 4-byte buffer. -/
theorem claim5_witness :
    (readFile [0, 0, 0, 0] []).names = [] ∧
    (readFile [0, 0, 0, 0] []).parse_error.isSome = true := by
  have h := claim5_bad_magic_aborts [0, 0, 0, 0] [] (by decide)
  exact ⟨h.1, h.2.2.2.2.1⟩

/-- Reading a byte of a dropped prefix reads at the shifted index. -/
theorem byteAt_drop (data : List Nat) (pos i : Nat) :
    byteAt (data.drop pos) i = byteAt data (pos + i) := by
  simp [byteAt, List.getD_eq_getElem?_getD, List.getElem?_drop]

/-- A 32-bit accumulation can be read off the dropped prefix. -/
theorem u32At_drop (data : List Nat) (pos : Nat) :
    u32At data pos = u32At (data.drop pos) 0 := by
  simp [u32At, byteAt_drop]

/-- 32-bit accumulation over an explicit cons shape. -/
theorem u32At_cons (a b c d : Nat) (rest : List Nat) :
    u32At (a :: b :: c :: d :: rest) 0 = a + 256 * b + 65536 * c + 16777216 * d := rfl

/-- Roundtrip: the accumulation of `le32 v` is `v` (for `v` < 2^32). -/
theorem u32At_le32 (v : Nat) (rest : List Nat) (hv : v < 4294967296) :
    u32At (le32 v ++ rest) 0 = v := by
  have h : le32 v ++ rest =
      v % 256 :: v / 256 % 256 :: v / 65536 % 256 :: v / 16777216 % 256 :: rest := by
    simp [le32]
  rw [h, u32At_cons]
  omega

/-- Signed roundtrip at an append boundary (non-negative range). -/
theorem int32At_at_append (pre rest : List Nat) (v : Nat) (hv : v < 2147483648) :
    int32At (pre ++ (le32 v ++ rest)) pre.length = (v : Int) := by
  rw [int32At, u32At_drop, List.drop_left, u32At_le32 v rest (by omega), sign32, if_pos hv]

/-- The byte slice right after a length prefix recovers the encoded bytes. -/
theorem slice_after_le32 (pre t s : List Nat) (v : Nat) :
    sliceBytes (pre ++ (le32 v ++ (s ++ ([0] ++ t)))) (pre.length + 4) s.length = s := by
  have h4 : pre.length + 4 = (pre ++ le32 v).length := by simp [le32]
  rw [sliceBytes, ← List.append_assoc pre (le32 v) _, h4, List.drop_left, List.take_left]

/-- A non-empty decoded name is a non-empty string. -/
theorem decodeUtf8R_ne_empty (s : List Nat) (hs : s ≠ []) : decodeUtf8R s ≠ "" := by
  intro h
  apply hs
  have hdata : (decodeUtf8R s).data = s.map byteChar := rfl
  rw [h] at hdata
  exact List.map_eq_nil_iff.mp hdata.symm

/-- The datatable `_read_fstring` over one encoded entry at an append
boundary: it reads the length prefix, decodes the name bytes, and leaves the
cursor after the trailing NUL. -/
theorem readFString_encoded (pre s t : List Nat) (hlen : s.length + 1 < 2147483648) :
    readFString (pre ++ (le32 (s.length + 1) ++ (s ++ ([0] ++ t)))) pre.length =
      (decodeUtf8R s, pre.length + 4 + (s.length + 1)) := by
  have hdl : (pre ++ (le32 (s.length + 1) ++ (s ++ ([0] ++ t)))).length =
      pre.length + 4 + (s.length + 1) + t.length := by
    simp [le32]; omega
  have hint := int32At_at_append pre (s ++ ([0] ++ t)) (s.length + 1) hlen
  rw [readFString, if_neg (by omega)]
  rw [hint]
  have h0 : ¬ ((s.length + 1 : Nat) : Int) = 0 := by
    intro hc
    omega
  rw [if_neg h0, if_neg (by omega)]
  have htn : ((s.length + 1 : Nat) : Int).toNat = s.length + 1 := Int.toNat_ofNat _
  rw [htn, if_neg (by omega)]
  have hsl : s.length + 1 - 1 = s.length := rfl
  rw [hsl, slice_after_le32]

/-- Length of one encoded entry (4-byte prefix, name bytes, NUL, 4-byte hash). -/
theorem encodeEntry_length (e : List Nat × List Nat) (h4 : e.2.length = 4) :
    (encodeEntry e).length = e.1.length + 9 := by
  simp [encodeEntry, le32, h4]

/-- Lemma: `encodeEntries` distributes over cons. -/
theorem encodeEntries_cons (e : List Nat × List Nat) (rest : List (List Nat × List Nat)) :
    encodeEntries (e :: rest) = encodeEntry e ++ encodeEntries rest := by
  simp [encodeEntries]

/-- The name-table loop over a region holding exactly the encoded entries:
it decodes them in order and stops at the region boundary, provided the stop
condition (import offset reached, or fewer than 4 bytes remaining) holds
there.  This covers both the well-formed layout (import table starts at the
boundary) and the truncated layout (buffer ends at the boundary). -/
theorem parseNameTableLoop_encoded (entries : List (List Nat × List Nat)) :
    ∀ (pre post : List Nat) (fuel : Nat) (acc : List String) (impOff : Nat),
    (∀ e ∈ entries, WfEntry e) →
    pre.length + (encodeEntries entries).length ≤ impOff →
    (impOff ≤ pre.length + (encodeEntries entries).length ∨
      ((pre ++ (encodeEntries entries ++ post)).length : Int) - 4 ≤
        ((pre.length + (encodeEntries entries).length : Nat) : Int)) →
    entries.length < fuel →
    parseNameTableLoop (pre ++ (encodeEntries entries ++ post)) impOff fuel pre.length acc =
      acc ++ entries.map (fun e => decodeUtf8R e.1) := by
  induction entries with
  | nil =>
    intro pre post fuel acc impOff _hwf hle hstop hfuel
    obtain ⟨f, rfl⟩ : ∃ f, fuel = f + 1 := ⟨fuel - 1, by omega⟩
    simp only [encodeEntries, List.map_nil, List.flatten_nil, List.length_nil,
      List.nil_append, Nat.add_zero] at hstop hle ⊢
    rw [parseNameTableLoop, if_neg ?hc]
    · simp
    case hc =>
      rintro ⟨h1, h2⟩
      rcases hstop with h | h
      · omega
      · simp only [List.length_append] at h h2
        omega
  | cons e rest ih =>
    intro pre post fuel acc impOff hwf hle hstop hfuel
    obtain ⟨f, rfl⟩ : ∃ f, fuel = f + 1 := ⟨fuel - 1, by omega⟩
    have hfr : rest.length < f := by
      simp only [List.length_cons] at hfuel
      omega
    obtain ⟨hs, hslen, hhash⟩ : WfEntry e := hwf e (by simp)
    have hwfr : ∀ x ∈ rest, WfEntry x := fun x hx => hwf x (by simp [hx])
    have hee : (encodeEntry e).length = e.1.length + 9 := encodeEntry_length e hhash
    have hec : encodeEntries (e :: rest) = encodeEntry e ++ encodeEntries rest :=
      encodeEntries_cons e rest
    have hdata : pre ++ (encodeEntries (e :: rest) ++ post) =
        pre ++ (le32 (e.1.length + 1) ++ (e.1 ++ ([0] ++ (e.2 ++ (encodeEntries rest ++ post))))) := by
      rw [hec]
      simp [encodeEntry, List.append_assoc]
    have hdl : (pre ++ (encodeEntries (e :: rest) ++ post)).length =
        pre.length + (e.1.length + 9) + (encodeEntries rest).length + post.length := by
      rw [hec]
      simp [hee]
      omega
    have hfs : readFString (pre ++ (encodeEntries (e :: rest) ++ post)) pre.length =
        (decodeUtf8R e.1, pre.length + 4 + (e.1.length + 1)) := by
      rw [hdata]
      exact readFString_encoded pre e.1 _ hslen
    have hboundc : pre.length + (encodeEntries (e :: rest)).length =
        pre.length + (e.1.length + 9) + (encodeEntries rest).length := by
      rw [hec]
      simp [hee]
      omega
    rw [parseNameTableLoop, if_pos ?hcond]
    case hcond =>
      constructor
      · rw [hboundc] at hle
        omega
      · rw [hdl]
        push_cast
        omega
    rw [hfs]
    show (if decodeUtf8R e.1 = "" then acc else _) = _
    rw [if_neg (decodeUtf8R_ne_empty e.1 hs)]
    show parseNameTableLoop _ impOff f
        (if pre.length + 4 + (e.1.length + 1) + 4 ≤ (pre ++ (encodeEntries (e :: rest) ++ post)).length
         then pre.length + 4 + (e.1.length + 1) + 4 else pre.length + 4 + (e.1.length + 1))
        (acc ++ [decodeUtf8R e.1]) = _
    rw [if_pos (by rw [hdl]; omega)]
    have hassoc : pre ++ (encodeEntries (e :: rest) ++ post) =
        (pre ++ encodeEntry e) ++ (encodeEntries rest ++ post) := by
      rw [hec]
      simp [List.append_assoc]
    have hpos : pre.length + 4 + (e.1.length + 1) + 4 = (pre ++ encodeEntry e).length := by
      simp [hee]
      omega
    rw [hassoc, hpos]
    rw [ih (pre ++ encodeEntry e) post f (acc ++ [decodeUtf8R e.1]) impOff hwfr ?hle2 ?hstop2 hfr]
    · simp
    case hle2 =>
      simp only [List.length_append, hee]
      rw [hboundc] at hle
      omega
    case hstop2 =>
      rw [← hassoc]
      rcases hstop with h | h
      · left
        rw [hboundc] at h
        simp only [List.length_append, hee]
        omega
      · right
        rw [hboundc] at h
        simp only [List.length_append, hee] at h ⊢
        push_cast at h ⊢
        omega

/-- There are at least as many encoded bytes as entries. -/
theorem entries_length_le_encode (entries : List (List Nat × List Nat)) :
    entries.length ≤ (encodeEntries entries).length := by
  induction entries with
  | nil => simp [encodeEntries]
  | cons e rest ih =>
    rw [encodeEntries_cons]
    have h1 : 1 ≤ (encodeEntry e).length := by simp [encodeEntry, le32]
    simp only [List.length_cons, List.length_append]
    omega

/-- Strict UTF-8 decoding succeeds on ASCII bytes and agrees with the
replacing decoder. -/
theorem decodeUtf8S_ascii (s : List Nat) (h : ∀ b ∈ s, b < 128) :
    decodeUtf8S s = some (decodeUtf8R s) := by
  have hall : s.all (fun b => decide (b < 128)) = true := by
    rw [List.all_eq_true]
    intro x hx
    simpa using h x hx
  simp only [decodeUtf8S, decodeUtf8R]
  rw [if_pos hall]

/-- The json `_read_fstring` over one encoded entry at an append boundary. -/
theorem readFStringJ_encoded (pre s t : List Nat) (hlen : s.length + 1 < 2147483648)
    (hascii : ∀ b ∈ s, b < 128) :
    readFStringJ (pre ++ (le32 (s.length + 1) ++ (s ++ ([0] ++ t)))) pre.length =
      some (decodeUtf8R s, pre.length + 4 + (s.length + 1)) := by
  have hdl : (pre ++ (le32 (s.length + 1) ++ (s ++ ([0] ++ t)))).length =
      pre.length + 4 + (s.length + 1) + t.length := by
    simp [le32]
    omega
  have hr : readInt32 (pre ++ (le32 (s.length + 1) ++ (s ++ ([0] ++ t)))) pre.length =
      some (((s.length + 1 : Nat) : Int), pre.length + 4) := by
    rw [readInt32, if_pos (by omega), int32At_at_append pre _ (s.length + 1) hlen]
  rw [readFStringJ, hr]
  dsimp only
  have h0 : ¬ ((s.length + 1 : Nat) : Int) = 0 := by
    intro hc
    omega
  rw [if_neg h0, if_neg (by omega)]
  have htn : ((s.length + 1 : Nat) : Int).toNat = s.length + 1 := Int.toNat_ofNat _
  rw [htn]
  have hsl : s.length + 1 - 1 = s.length := rfl
  rw [hsl, slice_after_le32, decodeUtf8S_ascii s hascii]
  rfl

/-- The json `_read_names` over a region holding exactly the declared number
of encoded ASCII entries: it succeeds with those names, in order. -/
theorem readNamesJ_encoded (entries : List (List Nat × List Nat)) :
    ∀ (pre post : List Nat) (acc : List String),
    (∀ e ∈ entries, WfEntry e ∧ ∀ b ∈ e.1, b < 128) →
    readNamesJ (pre ++ (encodeEntries entries ++ post)) entries.length pre.length acc =
      some (acc ++ entries.map (fun e => decodeUtf8R e.1),
            pre.length + (encodeEntries entries).length) := by
  induction entries with
  | nil =>
    intro pre post acc _hwf
    simp [readNamesJ, encodeEntries]
  | cons e rest ih =>
    intro pre post acc hwf
    obtain ⟨⟨_hs, hslen, hhash⟩, hascii⟩ := hwf e (by simp)
    have hwfr : ∀ x ∈ rest, WfEntry x ∧ ∀ b ∈ x.1, b < 128 :=
      fun x hx => hwf x (by simp [hx])
    have hee : (encodeEntry e).length = e.1.length + 9 := encodeEntry_length e hhash
    have hec : encodeEntries (e :: rest) = encodeEntry e ++ encodeEntries rest :=
      encodeEntries_cons e rest
    have hdata : pre ++ (encodeEntries (e :: rest) ++ post) =
        pre ++ (le32 (e.1.length + 1) ++ (e.1 ++ ([0] ++ (e.2 ++ (encodeEntries rest ++ post))))) := by
      rw [hec]
      simp [encodeEntry, List.append_assoc]
    have hdl : (pre ++ (encodeEntries (e :: rest) ++ post)).length =
        pre.length + (e.1.length + 9) + (encodeEntries rest).length + post.length := by
      rw [hec]
      simp [hee]
      omega
    have hfs : readFStringJ (pre ++ (encodeEntries (e :: rest) ++ post)) pre.length =
        some (decodeUtf8R e.1, pre.length + 4 + (e.1.length + 1)) := by
      rw [hdata]
      exact readFStringJ_encoded pre e.1 _ hslen hascii
    show readNamesJ _ (rest.length + 1) _ _ = _
    rw [readNamesJ, hfs]
    dsimp only
    rw [if_pos (by rw [hdl]; omega)]
    have hassoc : pre ++ (encodeEntries (e :: rest) ++ post) =
        (pre ++ encodeEntry e) ++ (encodeEntries rest ++ post) := by
      rw [hec]
      simp [List.append_assoc]
    have hpos : pre.length + 4 + (e.1.length + 1) + 4 = (pre ++ encodeEntry e).length := by
      simp [hee]
      omega
    rw [hassoc, hpos, ih (pre ++ encodeEntry e) post (acc ++ [decodeUtf8R e.1]) hwfr]
    rw [hec]
    simp only [List.length_append, List.map_cons, hee]
    rw [List.append_assoc acc _ _]
    have : pre.length + (e.1.length + 9) + (encodeEntries rest).length =
        pre.length + ((e.1.length + 9) + (encodeEntries rest).length) := by omega
    simp [this]

/-- Whenever `_read_names` completes, it has appended exactly one name per
iteration. -/
theorem readNamesJ_length (data : List Nat) :
    ∀ (n pos : Nat) (acc ns : List String) (p : Nat),
    readNamesJ data n pos acc = some (ns, p) → ns.length = acc.length + n := by
  intro n
  induction n with
  | zero =>
    intro pos acc ns p h
    simp only [readNamesJ, Option.some.injEq, Prod.mk.injEq] at h
    rw [← h.1]
    omega
    
  | succ n ih =>
    intro pos acc ns p h
    rw [readNamesJ] at h
    cases hf : readFStringJ data pos with
    | none => rw [hf] at h; exact absurd h (by simp)
    | some sp =>
      obtain ⟨s, p1⟩ := sp
      rw [hf] at h
      dsimp only at h
      have := ih _ (acc ++ [s]) ns p h
      simp only [List.length_append, List.length_cons, List.length_nil] at this
      omega

/-- Claim C2: for every input on which the json name-table reader completes
(in particular every well-formed one), the decoded names list has length
exactly the declared count `n`; and on every buffer whose name-table region
holds exactly `n` well-formed ASCII `FString`+hash entries, the reader does
complete, returning those `n` names in order. -/
theorem claim2_names_length_matches_count :
    (∀ (data : List Nat) (nameOffset n : Nat) (ns : List String) (p : Nat),
      readNamesJ data n nameOffset [] = some (ns, p) → ns.length = n) ∧
    (∀ (pre post : List Nat) (entries : List (List Nat × List Nat)),
      (∀ e ∈ entries, WfEntry e ∧ ∀ b ∈ e.1, b < 128) →
      readNamesJ (pre ++ (encodeEntries entries ++ post)) entries.length pre.length [] =
        some (entries.map (fun e => decodeUtf8R e.1),
              pre.length + (encodeEntries entries).length)) := by
  constructor
  · intro data nameOffset n ns p h
    have := readNamesJ_length data n nameOffset [] ns p h
    simpa using this
  · intro pre post entries hwf
    have := readNamesJ_encoded entries pre post [] hwf
    simpa using this

/-- Witness for C2: a buffer holding exactly one entry ("A" plus hash)
decodes to one name under a declared count of 1. -/
theorem claim2_witness :
    readNamesJ [2, 0, 0, 0, 65, 0, 9, 9, 9, 9] 1 0 [] = some (["A"], 10) ∧
    (["A"] : List String).length = 1 := by
  constructor
  · have h := claim2_names_length_matches_count.2 [] [] [([65], [9, 9, 9, 9])]
      (by
        intro e he
        simp only [List.mem_singleton] at he
        subst he
        exact ⟨⟨by decide, by decide, by decide⟩, by decide⟩)
    exact h.trans (by decide)
  · exact claim2_names_length_matches_count.1 [2, 0, 0, 0, 65, 0, 9, 9, 9, 9] 0 1 ["A"] 10
      (by decide)

/-- Amended claim C4: over a name-table region holding exactly the encoded
entries and then ending (truncation), `_parse_name_table` returns exactly
those decoded names — no more, no fewer — and, being a total function into a
bare list, terminates without any failure and without producing any
truncation marker. -/
theorem claim4_amended_truncated_names (pre : List Nat)
    (entries : List (List Nat × List Nat)) (impOff : Nat)
    (hwf : ∀ e ∈ entries, WfEntry e)
    (hoff : (pre ++ encodeEntries entries).length ≤ impOff) :
    parseNameTable (pre ++ encodeEntries entries) pre.length impOff =
      entries.map (fun e => decodeUtf8R e.1) := by
  have hshape : pre ++ encodeEntries entries = pre ++ (encodeEntries entries ++ []) := by
    simp
  rw [parseNameTable, hshape]
  refine parseNameTableLoop_encoded entries pre [] _ [] impOff hwf ?_ ?_ ?_
  · simp only [List.length_append] at hoff
    exact hoff
  · right
    simp only [List.length_append, List.append_nil]
    push_cast
    omega
  · have h1 := entries_length_le_encode entries
    simp only [List.length_append, List.append_nil]
    omega


/-- Counterexample to C4 as stated: on a header declaring 2 names over a
region truncated after 1 complete entry, the decode returns the 1 name and
does not fail — but the result carries no TruncatedDataError marker of any
kind: its parse-error field is unset (and no such marker exists anywhere in
the source). -/
theorem claim4_counterexample :
    (readFile c4data []).names = ["A"] ∧
    (readFile c4data []).header = some ⟨0, 2, 0, 0⟩ ∧
    (readFile c4data []).parse_error = none ∧
    (readFile c4data []).extracted = false := by
  set_option maxRecDepth 40000 in
  refine ⟨by rfl, by rfl, by rfl, by rfl⟩

/-- Witness for the amended C4 theorem on a concrete one-entry region. -/
theorem claim4_witness :
    parseNameTable [2, 0, 0, 0, 65, 0, 7, 7, 7, 7] 0 20 = ["A"] := by
  have h := claim4_amended_truncated_names [] [([65], [7, 7, 7, 7])] 20
    (by
      intro e he
      simp only [List.mem_singleton] at he
      subst he
      exact ⟨by decide, by decide, by decide⟩)
    (by decide)
  exact h.trans (by decide)

/-- Amended claim C3: a length-prefixed string read that would need bytes
past the buffer end does not fail with an "UnexpectedEndOfData" error.  The
datatable variant silently returns the empty string (cursor unmoved when even
the prefix is short, cursor after the prefix when the body is short) — the
enclosing name-table loop treats that empty string as its stop condition.
The json variant raises only when the 4-byte prefix itself is short
(a plain `struct.error`); a short body silently yields a partial decode with
the cursor pushed past the end. -/
theorem claim3_amended_silent_eof (data : List Nat) (pos : Nat) :
    (data.length < pos + 4 →
      readFString data pos = ("", pos) ∧ readFStringJ data pos = none) ∧
    (∀ (L : Int) (p : Nat), readInt32 data pos = some (L, p) → 0 < L →
      data.length < p + L.toNat →
      readFString data pos = ("", p) ∧
        ∃ s, readFStringJ data pos = some (s, p + L.toNat)) ∧
    (∀ (L : Int) (p : Nat), readInt32 data pos = some (L, p) → L < 0 →
      data.length < p + (-L).toNat * 2 →
      readFString data pos = ("", p) ∧
        ∃ s, readFStringJ data pos = some (s, p + (-L).toNat * 2)) := by
  refine ⟨fun hshort => ⟨?_, ?_⟩, fun L p h hLpos hover => ⟨?_, ?_⟩,
    fun L p h hLneg hover => ⟨?_, ?_⟩⟩
  · rw [readFString, if_pos (by omega)]
  · rw [readFStringJ, readInt32, if_neg (by omega)]
  · obtain ⟨hL, hp, hlen4⟩ : int32At data pos = L ∧ p = pos + 4 ∧ pos + 4 ≤ data.length := by
      rw [readInt32] at h
      split at h
      · have := (Option.some.injEq .. ▸ h)
        exact ⟨(Prod.mk.injEq .. ▸ this).1, ((Prod.mk.injEq .. ▸ this).2).symm, by assumption⟩
      · exact absurd h (by simp)
    subst hp
    rw [readFString, if_neg (by omega)]
    dsimp only
    rw [hL, if_neg (by omega), if_neg (by omega), if_pos (by omega)]
  · obtain ⟨hL, hp, hlen4⟩ : int32At data pos = L ∧ p = pos + 4 ∧ pos + 4 ≤ data.length := by
      rw [readInt32] at h
      split at h
      · have := (Option.some.injEq .. ▸ h)
        exact ⟨(Prod.mk.injEq .. ▸ this).1, ((Prod.mk.injEq .. ▸ this).2).symm, by assumption⟩
      · exact absurd h (by simp)
    subst hp
    rw [readFStringJ, h]
    dsimp only
    rw [if_neg (by omega), if_neg (by omega)]
    exact ⟨_, rfl⟩
  · obtain ⟨hL, hp, hlen4⟩ : int32At data pos = L ∧ p = pos + 4 ∧ pos + 4 ≤ data.length := by
      rw [readInt32] at h
      split at h
      · have := (Option.some.injEq .. ▸ h)
        exact ⟨(Prod.mk.injEq .. ▸ this).1, ((Prod.mk.injEq .. ▸ this).2).symm, by assumption⟩
      · exact absurd h (by simp)
    subst hp
    rw [readFString, if_neg (by omega)]
    dsimp only
    rw [hL, if_neg (by omega), if_pos hLneg, if_pos (by omega)]
  · obtain ⟨hL, hp, hlen4⟩ : int32At data pos = L ∧ p = pos + 4 ∧ pos + 4 ≤ data.length := by
      rw [readInt32] at h
      split at h
      · have := (Option.some.injEq .. ▸ h)
        exact ⟨(Prod.mk.injEq .. ▸ this).1, ((Prod.mk.injEq .. ▸ this).2).symm, by assumption⟩
      · exact absurd h (by simp)
    subst hp
    rw [readFStringJ, h]
    dsimp only
    rw [if_neg (by omega), if_pos hLneg]
    exact ⟨_, rfl⟩

/-- Counterexample to C3 as stated: a positive length prefix whose body runs
past the buffer end is read without any error — the json variant silently
decodes the short slice ("A") and pushes the cursor past the end, the
datatable variant silently returns the empty string. -/
theorem claim3_counterexample :
    readFStringJ [6, 0, 0, 0, 65] 0 = some ("A", 10) ∧
    readFString [6, 0, 0, 0, 65] 0 = ("", 4) := by
  exact ⟨by decide, by decide⟩

/-- Witness for the amended C3 theorem. -/
theorem claim3_witness :
    readFString [5, 0, 0, 0] 0 = ("", 4) ∧ readFStringJ [5, 0, 0, 0] 5 = none := by
  constructor
  · exact ((claim3_amended_silent_eof [5, 0, 0, 0] 0).2.1 5 4 (by decide) (by decide)
      (by decide)).1
  · exact ((claim3_amended_silent_eof [5, 0, 0, 0] 5).1 (by decide)).2

/-- The array element loop always returns exactly as many elements as its
iteration count. -/
theorem readArrayElems_length (rv : Nat → String → Int → PropValue × Nat) :
    ∀ (n pos : Nat) (innerType : String),
    (readArrayElems rv n pos innerType).1.length = n := by
  intro n
  induction n with
  | zero => intro pos it; rfl
  | succ n ih =>
    intro pos it
    rw [readArrayElems]
    rcases h : rv pos it 0 with ⟨v, p⟩
    dsimp only
    rcases h2 : readArrayElems rv n p it with ⟨vs, p'⟩
    dsimp only
    have := ih p it
    rw [h2] at this
    simpa using this

/-- Amended claim C1: after reading the inner element type-tag FName,
skipping one padding byte, and reading a signed 32-bit element count C, the
element decoder is recursed exactly min(C, 100) times — the loop is capped at
100 iterations — and the resulting list has length exactly min(C, 100), in
source order (for every non-negative C decodable from the buffer). -/
theorem claim1_amended_array_count_capped (names : List String) (data : List Nat)
    (pos : Nat) (innerType : String) (p1 : Nat) (c : Int) (p3 : Nat) (size : Int)
    (fuel : Nat)
    (hname : readFName names data pos = (innerType, p1))
    (hcount : readInt32 data (p1 + 1) = some (c, p3)) (_hc : 0 ≤ c) :
    ∃ (vs : List PropValue) (p' : Nat),
      readPropertyValue names data (fuel + 1) pos "ArrayProperty" size = (.varr vs, p') ∧
      vs.length = (min c 100).toNat := by
  rw [readPropertyValue_succ, readPropertyValueStep]
  rw [if_neg (by decide), if_neg (by decide), if_neg (by decide), if_neg (by decide),
    if_neg (by decide), if_neg (by decide), if_neg (by decide), if_pos rfl]
  rw [hname]
  dsimp only
  rw [hcount]
  dsimp only
  rcases h3 : readArrayElems (readPropertyValue names data fuel) (elemCount c) p3 innerType
    with ⟨vs, p'⟩
  dsimp only
  refine ⟨vs, p', rfl, ?_⟩
  have := readArrayElems_length (readPropertyValue names data fuel) (elemCount c) p3 innerType
  rw [h3] at this
  exact this

/-- Counterexample to C1 as stated: a decodable element count of 101 produces
an array of only 100 elements (the loop cap), not 101. -/
theorem claim1_counterexample :
    readInt32 [0, 0, 0, 0, 0, 0, 0, 0, 0, 101, 0, 0, 0] 9 = some (101, 13) ∧
    arrLength (readPropertyValue [] [0, 0, 0, 0, 0, 0, 0, 0, 0, 101, 0, 0, 0]
      2 0 "ArrayProperty" 0).1 = 100 := by
  exact ⟨by decide, by rfl⟩

/-- Witness for the amended C1 theorem at element count 2. -/
theorem claim1_witness :
    ∃ (vs : List PropValue) (p' : Nat),
      readPropertyValue [] [0, 0, 0, 0, 0, 0, 0, 0, 0, 2, 0, 0, 0]
        1 0 "ArrayProperty" 0 = (.varr vs, p') ∧ vs.length = 2 := by
  obtain ⟨vs, p', heq, hlen⟩ := claim1_amended_array_count_capped []
    [0, 0, 0, 0, 0, 0, 0, 0, 0, 2, 0, 0, 0] 0 "<name_0>" 8 2 13 0 0
    (by decide) (by decide) (by decide)
  refine ⟨vs, p', heq, ?_⟩
  rw [hlen]
  decide

/-- An unknown type tag with declared size 0 decodes to the tag-only
placeholder and consumes no bytes. -/
theorem readPropertyValue_unknown_zero (names : List String) (data : List Nat)
    (fuel pos : Nat) (ptype : String) (h : ptype ∉ knownPropertyTypes) :
    readPropertyValue names data (fuel + 1) pos ptype 0 =
      (.vstr ("<" ++ ptype ++ ">"), pos) := by
  simp only [knownPropertyTypes, List.mem_cons, List.not_mem_nil, or_false] at h
  push_neg at h
  obtain ⟨h1, h2, h3, h4, h5, h6, h7, h8, h9, h10, h11⟩ := h
  rw [readPropertyValue_succ, readPropertyValueStep]
  rw [if_neg h1, if_neg h2, if_neg h3, if_neg h4, if_neg h5, if_neg h6, if_neg h7,
    if_neg h8, if_neg h9, if_neg (fun hc => hc.elim (fun a => h10 a) (fun a => h11 a)),
    if_neg (by decide)]

/-- With an element reader that consumes nothing, the element loop yields a
constant list and leaves the cursor in place. -/
theorem readArrayElems_replicate (rv : Nat → String → Int → PropValue × Nat)
    (pos : Nat) (innerType : String) (v : PropValue)
    (h : rv pos innerType 0 = (v, pos)) :
    ∀ n, readArrayElems rv n pos innerType = (List.replicate n v, pos) := by
  intro n
  induction n with
  | zero => rfl
  | succ n ih =>
    rw [readArrayElems, h]
    dsimp only
    rw [ih]
    rfl

/-- Claim C10: every array element decode is invoked with declared size 0;
hence for an array whose inner type tag is unknown, every element decodes to
the tag-only placeholder consuming zero bytes, and the cursor after the whole
array equals its position right after the inner type FName, the padding byte
and the 4-byte count — independent of the element count. -/
theorem claim10_array_unknown_elements (names : List String) (data : List Nat)
    (pos : Nat) (innerType : String) (p1 : Nat) (c : Int) (p3 : Nat) (size : Int)
    (fuel : Nat)
    (hname : readFName names data pos = (innerType, p1))
    (hunk : innerType ∉ knownPropertyTypes)
    (hcount : readInt32 data (p1 + 1) = some (c, p3)) :
    readPropertyValue names data (fuel + 2) pos "ArrayProperty" size =
      (.varr (List.replicate (min c 100).toNat (.vstr ("<" ++ innerType ++ ">"))), p3) := by
  have helem := readPropertyValue_unknown_zero names data fuel p3 innerType hunk
  rw [readPropertyValue_succ, readPropertyValueStep]
  rw [if_neg (by decide), if_neg (by decide), if_neg (by decide), if_neg (by decide),
    if_neg (by decide), if_neg (by decide), if_neg (by decide), if_pos rfl]
  rw [hname]
  dsimp only
  rw [hcount]
  dsimp only
  rw [readArrayElems_replicate _ _ _ _ helem (elemCount c)]
  rfl

/-- Witness for C10 at element count 3 with the unknown tag `<name_0>`. -/
theorem claim10_witness :
    readPropertyValue [] [0, 0, 0, 0, 0, 0, 0, 0, 0, 3, 0, 0, 0]
      2 0 "ArrayProperty" 0 =
      (.varr (List.replicate 3 (.vstr "<<name_0>>")), 13) := by
  exact claim10_array_unknown_elements [] [0, 0, 0, 0, 0, 0, 0, 0, 0, 3, 0, 0, 0]
    0 "<name_0>" 8 3 13 0 0 (by decide) (by decide) (by decide)

/-- The property-list loop consumes exactly the traced iterations and stops
at the first sentinel name (which it does not store), provided enough
iterations remain. -/
theorem readPropsLoopG_of_trace (names : List String)
    (rv : Nat → String → Int → PropValue × Nat) (data : List Nat)
    (tr : List (String × PropValue)) (pos posk : Nat)
    (htr : PropTrace names rv data pos tr posk) :
    ∀ (iters : Nat) (props0 : List (String × PropValue)) (nm : String) (p' : Nat),
    tr.length < iters →
    (posk : Int) < (data.length : Int) - 8 →
    readFName names data posk = (nm, p') →
    isSentinel nm = true →
    readPropsLoopG names rv data iters props0 pos =
      some (tr.foldl (fun ps kv => dictInsert ps kv.1 kv.2) props0, p') := by
  induction htr with
  | nil pos0 =>
    intro iters props0 nm p' hlen hguard hname hsent
    obtain ⟨m, rfl⟩ : ∃ m, iters = m + 1 := ⟨iters - 1, by omega⟩
    rw [readPropsLoopG, if_neg (by omega), hname]
    dsimp only
    rw [hsent]
    rfl
  | step hguard0 hname0 hsent0 htype0 hsize0 hidx0 hval0 _hrest ih =>
    intro iters props0 nm' p' hlen hguard hname hsent
    obtain ⟨m, rfl⟩ : ∃ m, iters = m + 1 := ⟨iters - 1, by omega⟩
    rw [readPropsLoopG, if_neg (by omega), hname0]
    dsimp only
    rw [hsent0]
    rw [if_neg (by decide)]
    rw [htype0]
    dsimp only
    rw [hsize0]
    dsimp only
    rw [hidx0]
    dsimp only
    rw [hval0]
    dsimp only
    rw [ih m _ nm' p' (by simp at hlen; omega) hguard hname hsent]
    rfl

/-- Claim C6: when the k-th decoded property header (k below the 100-iteration
cap) carries a sentinel name ("None", empty, or an `<…>` placeholder), the
property-list decoder returns exactly the k properties decoded before it —
folded into the result dict in order — does not store the terminator, and
stops with the cursor right after the sentinel FName, regardless of any
trailing bytes. -/
theorem claim6_property_list_sentinel (names : List String) (data : List Nat)
    (fuel pos : Nat) (tr : List (String × PropValue)) (posk : Nat)
    (nm : String) (p' : Nat)
    (htr : PropTrace names (readPropertyValue names data fuel) data pos tr posk)
    (hcap : tr.length < 100)
    (hguard : (posk : Int) < (data.length : Int) - 8)
    (hname : readFName names data posk = (nm, p'))
    (hsent : isSentinel nm = true) :
    readProperties names data fuel pos =
      some (tr.foldl (fun ps kv => dictInsert ps kv.1 kv.2) [], p') := by
  rw [readProperties]
  exact readPropsLoopG_of_trace names _ data tr pos posk htr 100 [] nm p' hcap hguard
    hname hsent

/-- Witness for C6: one decoded property, then the "None" terminator at
position 32, with 9 trailing junk bytes that are never touched. -/
theorem claim6_witness :
    readProperties ["A", "IntProperty", "None"] c6data 1 0 =
      some ([("A", PropValue.vint 7)], 40) := by
  have htr := @PropTrace.step ["A", "IntProperty", "None"]
    (readPropertyValue ["A", "IntProperty", "None"] c6data 1) c6data
    0 8 16 24 28 32 32 "A" "IntProperty" 4 0 (PropValue.vint 7) []
    (by decide) (by decide) (by decide) (by decide) (by decide) (by decide) (by rfl)
    (PropTrace.nil 32)
  have h := claim6_property_list_sentinel ["A", "IntProperty", "None"] c6data 1 0
    [(propKey "A" 0, PropValue.vint 7)] 32 "None" 40 htr (by decide) (by decide)
    (by decide) (by decide)
  exact h
